import Mathlib

/-!
Packet filter chains of `net::Inet` (api/net/inet.hpp).

A shallow embedding of `Inet<IPV>::Filter_chain` and of its call operator,
instrumented with the two things a run can be observed to do besides
returning: invoking stages and emitting the drop diagnostic.

* `IPV::IP_packet_ptr` is a `std::unique_ptr`; the embedding uses `Option Pkt`,
  with `none` for `nullptr`.
* `Packetfilter` is `delegate<IP_packet_ptr(IP_packet_ptr, const Stack&)>`; the
  embedding follows the signature: a stage is a function of the packet pointer it
  is handed and of the stack view, and its result is the pointer it hands back.
* `int i` counts stages; it is embedded as a natural number (a chain would need
  `2^31` stages for the C++ counter to leave the range of `int`).
-/

namespace net

/-- Packet filter: `delegate<IP_packet_ptr(IP_packet_ptr, const Stack&)>`. -/
abbrev Packetfilter (Pkt : Type) (Stack : Type) : Type :=
  Option Pkt → Stack → Option Pkt

/-- Filter chain: `struct Filter_chain`, a `std::list<Packetfilter>` and a name. -/
structure Filter_chain (Pkt : Type) (Stack : Type) where
  chain : List (Packetfilter Pkt Stack)
  name : String

/-- Constructor `Filter_chain(const char* chain_name, std::initializer_list<Packetfilter> filters)`:
`chain{filters}, name{chain_name}`. -/
def Filter_chain.ctor {Pkt : Type} {Stack : Type}
    (chain_name : String) (filters : List (Packetfilter Pkt Stack)) : Filter_chain Pkt Stack :=
  { chain := filters, name := chain_name }

/-- One observed stage invocation `filter(std::move(pckt), stack)`: the value of the
counter `i` when it is made, the stage, and the two arguments it receives. -/
structure Invocation (Pkt : Type) (Stack : Type) where
  i : Nat
  filter : Packetfilter Pkt Stack
  pckt : Option Pkt
  stack : Stack

/-- One emitted diagnostic: the format string and the two arguments of a `debug` call. -/
structure Diagnostic where
  fmt : String
  name : String
  i : Nat
  deriving DecidableEq, Repr

/-- Modelled from the spec: the `debug` macro is declared outside api/net/inet.hpp; the
spec says the engine "emits a diagnostic identifying the chain name and the 1-based index
of the terminating stage", so a `debug(fmt, name, i)` call is modelled as emitting the
record of its format string and arguments. -/
def debug (fmt : String) (name : String) (i : Nat) : Diagnostic :=
  { fmt := fmt, name := name, i := i }

/-- The format string of the drop diagnostic in `Filter_chain::operator()`. -/
def drop_format : String := "Packet dropped in %s chain, filter %i \n"

/-- Everything observable of one call of `Filter_chain::operator()`: the returned pointer,
the chain object after the call (the operator is a non-const member), the stage
invocations in the order they were made, and the diagnostics emitted. -/
structure Run (Pkt : Type) (Stack : Type) where
  ret : Option Pkt
  self : Filter_chain Pkt Stack
  calls : List (Invocation Pkt Stack)
  log : List Diagnostic

/-- Body of `for (auto filter : chain) { ... } return pckt;` in `Filter_chain::operator()`,
over the stages still to visit, with the current counter `i` and packet `pckt`:
`i++; pckt = filter(std::move(pckt), stack);
 if (pckt == nullptr) { debug("Packet dropped in %s chain, filter %i \n", name, i); return nullptr; }`. -/
def Filter_chain.loop {Pkt : Type} {Stack : Type}
    (self : Filter_chain Pkt Stack) (stack : Stack) :
    List (Packetfilter Pkt Stack) → Nat → Option Pkt → Run Pkt Stack
  | [], _, pckt => { ret := pckt, self := self, calls := [], log := [] }
  | filter :: rest, i, pckt =>
    let i := i + 1
    let call : Invocation Pkt Stack := { i := i, filter := filter, pckt := pckt, stack := stack }
    match filter pckt stack with
    | none =>
      { ret := none, self := self, calls := [call],
        log := [debug drop_format self.name i] }
    | some q =>
      let r := Filter_chain.loop self stack rest i (some q)
      { r with calls := call :: r.calls }

/-- The call operator `Filter_chain::operator()(IP_packet_ptr pckt, const Stack& stack)`:
`int i = 0;` then the loop over `chain`. -/
def Filter_chain.call {Pkt : Type} {Stack : Type}
    (self : Filter_chain Pkt Stack) (pckt : Option Pkt) (stack : Stack) : Run Pkt Stack :=
  Filter_chain.loop self stack self.chain 0 pckt

/-! ### Vocabulary of the properties -/

/-- The stages `fs` applied one after the other, each to the previous output, all with the
same stack view: `fn(...f2(f1(p, stack), stack)..., stack)`. -/
def apply_in_order {Pkt : Type} {Stack : Type}
    (fs : List (Packetfilter Pkt Stack)) (stack : Stack) (p : Option Pkt) : Option Pkt :=
  fs.foldl (fun q f => f q stack) p

/-- What stage number `j` (0-based) of `fs` is given when the stages are run in sequence. -/
def stage_input {Pkt : Type} {Stack : Type}
    (fs : List (Packetfilter Pkt Stack)) (stack : Stack) (p : Option Pkt) (j : Nat) : Option Pkt :=
  apply_in_order (fs.take j) stack p

/-- What stage number `j` (0-based) of `fs` returns when the stages are run in sequence. -/
def stage_output {Pkt : Type} {Stack : Type}
    (fs : List (Packetfilter Pkt Stack)) (stack : Stack) (p : Option Pkt) (j : Nat) : Option Pkt :=
  apply_in_order (fs.take (j + 1)) stack p

/-- Stage number `i` (0-based) is the first stage of `fs` that returns null on `p`. -/
def First_null {Pkt : Type} {Stack : Type}
    (fs : List (Packetfilter Pkt Stack)) (stack : Stack) (p : Option Pkt) (i : Nat) : Prop :=
  i < fs.length ∧ stage_output fs stack p i = none ∧
    ∀ j, j < i → stage_output fs stack p j ≠ none

/-- No stage of `fs` returns null when the stages are run in sequence on `p`. -/
def No_null {Pkt : Type} {Stack : Type}
    (fs : List (Packetfilter Pkt Stack)) (stack : Stack) (p : Option Pkt) : Prop :=
  ∀ j, j < fs.length → stage_output fs stack p j ≠ none

instance First_null.decidable {Pkt : Type} {Stack : Type} [DecidableEq Pkt]
    (fs : List (Packetfilter Pkt Stack)) (stack : Stack) (p : Option Pkt) (i : Nat) :
    Decidable (First_null fs stack p i) := by
  unfold First_null
  infer_instance

instance No_null.decidable {Pkt : Type} {Stack : Type} [DecidableEq Pkt]
    (fs : List (Packetfilter Pkt Stack)) (stack : Stack) (p : Option Pkt) :
    Decidable (No_null fs stack p) := by
  unfold No_null
  infer_instance

/-- The list `fs` with the stage `g` inserted at position `k`. -/
def insert_stage {Pkt : Type} {Stack : Type}
    (fs : List (Packetfilter Pkt Stack)) (k : Nat) (g : Packetfilter Pkt Stack) :
    List (Packetfilter Pkt Stack) :=
  fs.take k ++ g :: fs.drop k

/-- Scenario stage: drops every packet whose destination equals the blocked address `X`
and returns every other packet as it is. -/
def drop_blocked {Pkt : Type} {Stack : Type} {Addr : Type} [DecidableEq Addr]
    (dst : Pkt → Addr) (X : Addr) : Packetfilter Pkt Stack :=
  fun pckt _ =>
    match pckt with
    | none => none
    | some q => if dst q = X then none else some q

/-- Example stage: adds one to the payload of a packet, keeps null as it is. -/
def stage_inc : Packetfilter Nat Unit := fun pckt _ => pckt.map (fun q => q + 1)

/-- Example stage: drops everything. -/
def stage_drop : Packetfilter Nat Unit := fun _ _ => none

/-- Example stage: a pass-through filter. -/
def stage_pass : Packetfilter Nat Unit := fun pckt _ => pckt

/-- Example stage: answers a null packet with a fresh packet, passes every other packet. -/
def stage_revive : Packetfilter Nat Unit := fun pckt _ =>
  match pckt with
  | none => some 0
  | some q => some q

/-! ### Link cache -/

/-- Modelled from the spec: Link Cache Entry, "(resolved-address, link-address,
insertion-time)"; the cache implementation is outside api/net/inet.hpp, which only
declares `cache_link_addr`, `flush_link_cache` and `set_link_cache_flush_interval`. -/
structure Link_cache_entry (Addr : Type) (Mac : Type) where
  addr : Addr
  link_addr : Mac
  inserted : Nat
  deriving DecidableEq, Repr

/-- Modelled from the spec: the link cache of one stack, its entries and the single flush
interval ("a single process-wide setting per stack instance"); times and the interval are
in minutes. -/
structure Link_cache (Addr : Type) (Mac : Type) where
  entries : List (Link_cache_entry Addr Mac)
  flush_interval : Nat
  deriving DecidableEq, Repr

/-- Modelled from the spec: `cache_link_addr(addr, link_addr)` "inserts or overwrites the
mapping for `addr`" ("at most one live entry per resolved-address"); `now` is the time of
the call, recorded as the insertion time. -/
def cache_link_addr {Addr Mac : Type} [DecidableEq Addr]
    (c : Link_cache Addr Mac) (now : Nat) (a : Addr) (m : Mac) : Link_cache Addr Mac :=
  { c with entries :=
      { addr := a, link_addr := m, inserted := now } :: c.entries.filter (fun e => e.addr ≠ a) }

/-- Modelled from the spec: `flush_link_cache()` "unconditionally clears all entries". -/
def flush_link_cache {Addr Mac : Type} (c : Link_cache Addr Mac) : Link_cache Addr Mac :=
  { c with entries := [] }

/-- Modelled from the spec: `set_link_cache_flush_interval(duration)` sets the period after
which entries are invalid. -/
def set_link_cache_flush_interval {Addr Mac : Type}
    (c : Link_cache Addr Mac) (minutes : Nat) : Link_cache Addr Mac :=
  { c with flush_interval := minutes }

/-- Modelled from the spec: a lookup for `a` at time `now`; "entries older than the
configured flush interval are invalid and must be ... treated as absent on lookup", and a
lookup that finds no valid entry yields "not found" (`none`). -/
def link_cache_lookup {Addr Mac : Type} [DecidableEq Addr]
    (c : Link_cache Addr Mac) (now : Nat) (a : Addr) : Option Mac :=
  (c.entries.find? (fun e => e.addr = a ∧ now - e.inserted ≤ c.flush_interval)).map
    (fun e => e.link_addr)

/-! ### The sequence of invocations a run is expected to make -/

/-- The run made exactly the invocations of the first `n` stages of `fs`, once each and in
list order: invocation number `j` (0-based) is of stage `j`, is made with the counter at
`j + 1`, receives what stage `j` is given when the stages are run in sequence on `p` (the
input `p` for the first stage, the previous stage's output otherwise) and the stack `s`. -/
def Invoked_first {Pkt : Type} {Stack : Type}
    (calls : List (Invocation Pkt Stack)) (fs : List (Packetfilter Pkt Stack))
    (s : Stack) (p : Option Pkt) (n : Nat) : Prop :=
  calls.map (fun c => c.filter) = fs.take n ∧
  calls.map (fun c => c.i) = List.range' 1 n ∧
  calls.map (fun c => c.pckt) = (List.range n).map (stage_input fs s p) ∧
  calls.map (fun c => c.stack) = List.replicate n s

/-! ## Lemmas -/

section lemmas

variable {Pkt : Type} {Stack : Type}

theorem apply_in_order_cons (f : Packetfilter Pkt Stack) (fs : List (Packetfilter Pkt Stack))
    (s : Stack) (p : Option Pkt) :
    apply_in_order (f :: fs) s p = apply_in_order fs s (f p s) := rfl

theorem stage_output_cons_zero (f : Packetfilter Pkt Stack) (fs : List (Packetfilter Pkt Stack))
    (s : Stack) (p : Option Pkt) : stage_output (f :: fs) s p 0 = f p s := rfl

theorem stage_output_cons_succ (f : Packetfilter Pkt Stack) (fs : List (Packetfilter Pkt Stack))
    (s : Stack) (p : Option Pkt) (j : Nat) :
    stage_output (f :: fs) s p (j + 1) = stage_output fs s (f p s) j := rfl

theorem stage_input_zero (fs : List (Packetfilter Pkt Stack)) (s : Stack) (p : Option Pkt) :
    stage_input fs s p 0 = p := by
  simp [stage_input, apply_in_order]

theorem stage_input_cons_succ (f : Packetfilter Pkt Stack) (fs : List (Packetfilter Pkt Stack))
    (s : Stack) (p : Option Pkt) (j : Nat) :
    stage_input (f :: fs) s p (j + 1) = stage_input fs s (f p s) j := rfl

theorem not_first_null_nil (s : Stack) (p : Option Pkt) (k : Nat) :
    ¬ First_null ([] : List (Packetfilter Pkt Stack)) s p k := by
  intro h
  exact Nat.not_lt_zero _ h.1

theorem first_null_cons_zero (f : Packetfilter Pkt Stack) (fs : List (Packetfilter Pkt Stack))
    (s : Stack) (p : Option Pkt) : First_null (f :: fs) s p 0 ↔ f p s = none := by
  constructor
  · intro h
    exact h.2.1
  · intro h
    exact ⟨Nat.succ_pos _, h, fun j hj => absurd hj (Nat.not_lt_zero j)⟩

theorem first_null_cons_succ (f : Packetfilter Pkt Stack) (fs : List (Packetfilter Pkt Stack))
    (s : Stack) (p : Option Pkt) (k : Nat) :
    First_null (f :: fs) s p (k + 1) ↔ f p s ≠ none ∧ First_null fs s (f p s) k := by
  constructor
  · rintro ⟨hlen, hnull, hfirst⟩
    refine ⟨hfirst 0 (Nat.succ_pos k), Nat.lt_of_succ_lt_succ hlen, hnull, ?_⟩
    intro j hj
    exact hfirst (j + 1) (Nat.succ_lt_succ hj)
  · rintro ⟨h0, hlen, hnull, hfirst⟩
    refine ⟨Nat.succ_lt_succ hlen, hnull, ?_⟩
    intro j hj
    cases j with
    | zero => exact h0
    | succ j => exact hfirst j (Nat.lt_of_succ_lt_succ hj)

theorem no_null_cons (f : Packetfilter Pkt Stack) (fs : List (Packetfilter Pkt Stack))
    (s : Stack) (p : Option Pkt) :
    No_null (f :: fs) s p ↔ f p s ≠ none ∧ No_null fs s (f p s) := by
  constructor
  · intro h
    exact ⟨h 0 (Nat.succ_pos _), fun j hj => h (j + 1) (Nat.succ_lt_succ hj)⟩
  · rintro ⟨h0, h⟩ j hj
    cases j with
    | zero => exact h0
    | succ j => exact h j (Nat.lt_of_succ_lt_succ hj)

theorem loop_cons_none (self : Filter_chain Pkt Stack) (s : Stack)
    (f : Packetfilter Pkt Stack) (rest : List (Packetfilter Pkt Stack)) (i : Nat)
    (p : Option Pkt) (h : f p s = none) :
    self.loop s (f :: rest) i p =
      { ret := none, self := self,
        calls := [{ i := i + 1, filter := f, pckt := p, stack := s }],
        log := [debug drop_format self.name (i + 1)] } := by
  simp only [Filter_chain.loop, h]

theorem loop_cons_some (self : Filter_chain Pkt Stack) (s : Stack)
    (f : Packetfilter Pkt Stack) (rest : List (Packetfilter Pkt Stack)) (i : Nat)
    (p : Option Pkt) (q : Pkt) (h : f p s = some q) :
    self.loop s (f :: rest) i p =
      { self.loop s rest (i + 1) (some q) with
        calls := { i := i + 1, filter := f, pckt := p, stack := s } ::
          (self.loop s rest (i + 1) (some q)).calls } := by
  simp only [Filter_chain.loop, h]

theorem loop_self (self : Filter_chain Pkt Stack) (s : Stack) :
    ∀ (fs : List (Packetfilter Pkt Stack)) (i : Nat) (p : Option Pkt),
      (self.loop s fs i p).self = self := by
  intro fs
  induction fs with
  | nil => intro i p; rfl
  | cons f rest ih =>
    intro i p
    cases h : f p s with
    | none => rw [loop_cons_none self s f rest i p h]
    | some q => rw [loop_cons_some self s f rest i p q h]; exact ih (i + 1) (some q)

/-- The run of the loop when stage `k` is the first to return null. -/
theorem loop_of_first_null (self : Filter_chain Pkt Stack) (s : Stack) :
    ∀ (fs : List (Packetfilter Pkt Stack)) (i : Nat) (p : Option Pkt) (k : Nat),
      First_null fs s p k →
      (self.loop s fs i p).ret = none ∧
      (self.loop s fs i p).log = [debug drop_format self.name (i + k + 1)] ∧
      (self.loop s fs i p).calls.map (fun c => c.filter) = fs.take (k + 1) ∧
      (self.loop s fs i p).calls.map (fun c => c.i) = List.range' (i + 1) (k + 1) ∧
      (self.loop s fs i p).calls.map (fun c => c.pckt)
        = (List.range (k + 1)).map (stage_input fs s p) ∧
      (self.loop s fs i p).calls.map (fun c => c.stack) = List.replicate (k + 1) s := by
  intro fs
  induction fs with
  | nil => intro i p k h; exact absurd h (not_first_null_nil s p k)
  | cons f rest ih =>
    intro i p k h
    cases k with
    | zero =>
      have h0 : f p s = none := (first_null_cons_zero f rest s p).1 h
      rw [loop_cons_none self s f rest i p h0]
      refine ⟨rfl, rfl, rfl, rfl, ?_, rfl⟩
      show [p] = [stage_input (f :: rest) s p 0]
      rw [stage_input_zero]
    | succ k =>
      obtain ⟨h0, hk⟩ := (first_null_cons_succ f rest s p k).1 h
      obtain ⟨q, hq⟩ := Option.ne_none_iff_exists'.1 h0
      rw [hq] at hk
      obtain ⟨h1, h2, h3, h4, h5, h6⟩ := ih (i + 1) (some q) k hk
      rw [loop_cons_some self s f rest i p q hq]
      refine ⟨h1, ?_, ?_, ?_, ?_, ?_⟩
      · rw [h2, Nat.add_right_comm i 1 k, Nat.add_assoc i k 1, Nat.add_assoc i (k + 1) 1]
      · simp only [List.map_cons, h3, List.take_succ_cons]
      · simp only [List.map_cons, h4]
        rfl
      · simp only [List.map_cons, h5]
        rw [List.range_succ_eq_map (k + 1), List.map_cons, List.map_map, stage_input_zero]
        congr 1
        apply List.map_congr_left
        intro j _
        simp only [Function.comp, stage_input_cons_succ, hq]
      · simp only [List.map_cons, h6]
        rfl

/-- The run of the loop when no stage returns null. -/
theorem loop_of_no_null (self : Filter_chain Pkt Stack) (s : Stack) :
    ∀ (fs : List (Packetfilter Pkt Stack)) (i : Nat) (p : Option Pkt),
      No_null fs s p →
      (self.loop s fs i p).ret = apply_in_order fs s p ∧
      (self.loop s fs i p).log = [] ∧
      (self.loop s fs i p).calls.map (fun c => c.filter) = fs ∧
      (self.loop s fs i p).calls.map (fun c => c.i) = List.range' (i + 1) fs.length ∧
      (self.loop s fs i p).calls.map (fun c => c.pckt)
        = (List.range fs.length).map (stage_input fs s p) ∧
      (self.loop s fs i p).calls.map (fun c => c.stack) = List.replicate fs.length s := by
  intro fs
  induction fs with
  | nil => intro i p _; exact ⟨rfl, rfl, rfl, rfl, rfl, rfl⟩
  | cons f rest ih =>
    intro i p h
    obtain ⟨h0, hk⟩ := (no_null_cons f rest s p).1 h
    obtain ⟨q, hq⟩ := Option.ne_none_iff_exists'.1 h0
    rw [hq] at hk
    obtain ⟨h1, h2, h3, h4, h5, h6⟩ := ih (i + 1) (some q) hk
    rw [loop_cons_some self s f rest i p q hq]
    refine ⟨?_, h2, ?_, ?_, ?_, ?_⟩
    · rw [apply_in_order_cons, hq]; exact h1
    · simp only [List.map_cons, h3]
    · simp only [List.map_cons, h4, List.length_cons]
      rfl
    · simp only [List.map_cons, h5, List.length_cons]
      rw [List.range_succ_eq_map rest.length, List.map_cons, List.map_map, stage_input_zero]
      congr 1
      apply List.map_congr_left
      intro j _
      simp only [Function.comp, stage_input_cons_succ, hq]
    · simp only [List.map_cons, h6, List.length_cons]
      rfl

/-- Either some stage is the first to return null, or none returns null. -/
theorem first_null_or_no_null (s : Stack) :
    ∀ (fs : List (Packetfilter Pkt Stack)) (p : Option Pkt),
      (∃ k, First_null fs s p k) ∨ No_null fs s p := by
  intro fs
  induction fs with
  | nil => intro p; exact Or.inr (fun j hj => absurd hj (Nat.not_lt_zero j))
  | cons f rest ih =>
    intro p
    by_cases h0 : f p s = none
    · exact Or.inl ⟨0, (first_null_cons_zero f rest s p).2 h0⟩
    · rcases ih (f p s) with ⟨k, hk⟩ | hn
      · exact Or.inl ⟨k + 1, (first_null_cons_succ f rest s p k).2 ⟨h0, hk⟩⟩
      · exact Or.inr ((no_null_cons f rest s p).2 ⟨h0, hn⟩)

/-- When no stage returns null, the composition is null only for the empty chain on null. -/
theorem apply_in_order_ne_none (fs : List (Packetfilter Pkt Stack)) (s : Stack)
    (p : Option Pkt) (h : No_null fs s p) (hne : fs ≠ [] ∨ p ≠ none) :
    apply_in_order fs s p ≠ none := by
  cases hfs : fs.length with
  | zero =>
    have hnil : fs = [] := List.length_eq_zero.1 hfs
    subst hnil
    rcases hne with h1 | h1
    · exact absurd rfl h1
    · exact h1
  | succ n =>
    have hn := h n (by omega)
    have htake : fs.take (n + 1) = fs := List.take_of_length_le (by omega)
    simpa [stage_output, htake] using hn

/-- The returned pointer depends neither on the chain object nor on the counter. -/
theorem loop_ret_indep (self other : Filter_chain Pkt Stack) (s : Stack) :
    ∀ (fs : List (Packetfilter Pkt Stack)) (i j : Nat) (p : Option Pkt),
      (self.loop s fs i p).ret = (other.loop s fs j p).ret := by
  intro fs
  induction fs with
  | nil => intro i j p; rfl
  | cons f rest ih =>
    intro i j p
    cases h : f p s with
    | none => rw [loop_cons_none self s f rest i p h, loop_cons_none other s f rest j p h]
    | some q =>
      rw [loop_cons_some self s f rest i p q h, loop_cons_some other s f rest j p q h]
      exact ih (i + 1) (j + 1) (some q)

/-- The invocations made do not depend on the chain object. -/
theorem loop_calls_indep (self other : Filter_chain Pkt Stack) (s : Stack) :
    ∀ (fs : List (Packetfilter Pkt Stack)) (i : Nat) (p : Option Pkt),
      (self.loop s fs i p).calls = (other.loop s fs i p).calls := by
  intro fs
  induction fs with
  | nil => intro i p; rfl
  | cons f rest ih =>
    intro i p
    cases h : f p s with
    | none => rw [loop_cons_none self s f rest i p h, loop_cons_none other s f rest i p h]
    | some q =>
      rw [loop_cons_some self s f rest i p q h, loop_cons_some other s f rest i p q h]
      show _ :: _ = _ :: _
      rw [ih (i + 1) (some q)]

/-- When a stage of `A` returns null, the stages appended after `A` play no part. -/
theorem loop_append_of_first_null (self : Filter_chain Pkt Stack) (s : Stack)
    (B : List (Packetfilter Pkt Stack)) :
    ∀ (A : List (Packetfilter Pkt Stack)) (i : Nat) (p : Option Pkt) (k : Nat),
      First_null A s p k → self.loop s (A ++ B) i p = self.loop s A i p := by
  intro A
  induction A with
  | nil => intro i p k h; exact absurd h (not_first_null_nil s p k)
  | cons f rest ih =>
    intro i p k h
    cases k with
    | zero =>
      have h0 : f p s = none := (first_null_cons_zero f rest s p).1 h
      rw [List.cons_append, loop_cons_none self s f (rest ++ B) i p h0,
        loop_cons_none self s f rest i p h0]
    | succ k =>
      obtain ⟨h0, hk⟩ := (first_null_cons_succ f rest s p k).1 h
      obtain ⟨q, hq⟩ := Option.ne_none_iff_exists'.1 h0
      rw [hq] at hk
      rw [List.cons_append, loop_cons_some self s f (rest ++ B) i p q hq,
        loop_cons_some self s f rest i p q hq, ih (i + 1) (some q) k hk]

/-- When no stage of `A` returns null, the run goes on with `B` on the output of `A`. -/
theorem loop_append_of_no_null (self : Filter_chain Pkt Stack) (s : Stack)
    (B : List (Packetfilter Pkt Stack)) :
    ∀ (A : List (Packetfilter Pkt Stack)) (i : Nat) (p : Option Pkt),
      No_null A s p →
      (self.loop s (A ++ B) i p).ret
        = (self.loop s B (i + A.length) (apply_in_order A s p)).ret ∧
      (self.loop s (A ++ B) i p).calls
        = (self.loop s A i p).calls
          ++ (self.loop s B (i + A.length) (apply_in_order A s p)).calls ∧
      (self.loop s (A ++ B) i p).log
        = (self.loop s B (i + A.length) (apply_in_order A s p)).log := by
  intro A
  induction A with
  | nil => intro i p _; exact ⟨rfl, rfl, rfl⟩
  | cons f rest ih =>
    intro i p h
    obtain ⟨h0, hk⟩ := (no_null_cons f rest s p).1 h
    obtain ⟨q, hq⟩ := Option.ne_none_iff_exists'.1 h0
    rw [hq] at hk
    obtain ⟨h1, h2, h3⟩ := ih (i + 1) (some q) hk
    have hlen : i + (f :: rest).length = i + 1 + rest.length := by
      simp only [List.length_cons]; omega
    rw [List.cons_append, loop_cons_some self s f (rest ++ B) i p q hq,
      loop_cons_some self s f rest i p q hq, apply_in_order_cons, hq, hlen]
    refine ⟨h1, ?_, h3⟩
    show _ :: _ = (_ :: _) ++ _
    rw [h2, List.cons_append]

/-- A null result of a run that was given a stage or a packet comes from an invoked stage. -/
theorem loop_ret_none_from_stage (self : Filter_chain Pkt Stack) (s : Stack) :
    ∀ (fs : List (Packetfilter Pkt Stack)) (i : Nat) (p : Option Pkt),
      fs ≠ [] ∨ p ≠ none → (self.loop s fs i p).ret = none →
      ∃ c ∈ (self.loop s fs i p).calls, c.filter c.pckt c.stack = none := by
  intro fs
  induction fs with
  | nil =>
    intro i p hne hret
    rcases hne with h | h
    · exact absurd rfl h
    · exact absurd hret h
  | cons f rest ih =>
    intro i p _ hret
    cases h : f p s with
    | none =>
      rw [loop_cons_none self s f rest i p h]
      exact ⟨_, List.mem_singleton.2 rfl, h⟩
    | some q =>
      rw [loop_cons_some self s f rest i p q h] at hret ⊢
      obtain ⟨c, hc, hnull⟩ := ih (i + 1) (some q) (Or.inr (Option.some_ne_none q)) hret
      exact ⟨c, List.mem_cons_of_mem _ hc, hnull⟩

/-- A chain of stages that return every packet unchanged returns its input packet. -/
theorem loop_pass_through (self : Filter_chain Pkt Stack) (s : Stack) :
    ∀ (fs : List (Packetfilter Pkt Stack)) (i : Nat) (p : Pkt),
      (∀ f ∈ fs, ∀ q : Pkt, f (some q) s = some q) →
      (self.loop s fs i (some p)).ret = some p := by
  intro fs
  induction fs with
  | nil => intro i p _; rfl
  | cons f rest ih =>
    intro i p h
    have hf : f (some p) s = some p := h f (List.mem_cons_self f rest) p
    rw [loop_cons_some self s f rest i (some p) p hf]
    exact ih (i + 1) p (fun g hg q => h g (List.mem_cons_of_mem f hg) q)

end lemmas

/-! ## The claims -/

section claims

variable {Pkt : Type} {Stack : Type}

/-- C1: if stage `i` (0-based) is the first stage that returns null when the chain is run
on the input packet, then the run returns null, it makes exactly `i + 1` invocations, these
are of the first `i + 1` stages, and every invocation is made with the counter at most
`i + 1`: no stage at a position after `i` is invoked. -/
theorem C1_null_stage_stops_chain (C : Filter_chain Pkt Stack) (s : Stack) (p : Option Pkt)
    (i : Nat) (h : First_null C.chain s p i) :
    (C.call p s).ret = none ∧
    (C.call p s).calls.length = i + 1 ∧
    (C.call p s).calls.map (fun c => c.filter) = C.chain.take (i + 1) ∧
    ∀ c ∈ (C.call p s).calls, c.i ≤ i + 1 := by
  obtain ⟨h1, _, h3, h4, _, _⟩ := loop_of_first_null C s C.chain 0 p i h
  have hlen : (C.call p s).calls.length = i + 1 := by
    have := congrArg List.length h4
    simpa [Filter_chain.call] using this
  refine ⟨h1, hlen, h3, ?_⟩
  intro c hc
  have hmem : c.i ∈ List.range' (0 + 1) (i + 1) := by
    rw [← h4]
    exact List.mem_map_of_mem (fun c => c.i) hc
  rw [List.mem_range'_1] at hmem
  omega

/-- C1 at a chain of three stages whose second stage drops. -/
theorem C1_null_stage_stops_chain_witness :
    First_null (Filter_chain.ctor "input" [stage_inc, stage_drop, stage_pass]).chain ()
      (some 5) 1 ∧
    ((Filter_chain.ctor "input" [stage_inc, stage_drop, stage_pass]).call (some 5) ()).ret
      = none ∧
    ((Filter_chain.ctor "input" [stage_inc, stage_drop, stage_pass]).call (some 5)
      ()).calls.length = 1 + 1 ∧
    ((Filter_chain.ctor "input" [stage_inc, stage_drop, stage_pass]).call (some 5)
      ()).calls.map (fun c => c.filter)
      = (Filter_chain.ctor "input" [stage_inc, stage_drop, stage_pass]).chain.take (1 + 1) ∧
    ∀ c ∈ ((Filter_chain.ctor "input" [stage_inc, stage_drop, stage_pass]).call (some 5)
      ()).calls, c.i ≤ 1 + 1 :=
  have hw : First_null (Filter_chain.ctor "input" [stage_inc, stage_drop, stage_pass]).chain ()
      (some 5) 1 :=
    by decide
  ⟨hw, C1_null_stage_stops_chain _ () (some 5) 1 hw⟩

/-- C2: for a chain built by the constructor from the stages `fs`, if every stage returns
non-null when the stages are run in sequence on `P`, the run returns the value
`fn(...f2(f1(P, stack), stack)..., stack)` of the stages applied in the order given to the
constructor, each to the previous output; that value is non-null (for the chain without
stages it is `P` itself, so this needs `P` non-null there). -/
theorem C2_all_pass_returns_composition (chain_name : String)
    (fs : List (Packetfilter Pkt Stack)) (s : Stack) (P : Option Pkt)
    (h : No_null fs s P) :
    ((Filter_chain.ctor chain_name fs).call P s).ret = apply_in_order fs s P ∧
    (fs ≠ [] ∨ P ≠ none → ((Filter_chain.ctor chain_name fs).call P s).ret ≠ none) := by
  have h1 := (loop_of_no_null (Filter_chain.ctor chain_name fs) s fs 0 P h).1
  refine ⟨h1, ?_⟩
  intro hne
  have h2 : ((Filter_chain.ctor chain_name fs).call P s).ret = apply_in_order fs s P := h1
  rw [h2]
  exact apply_in_order_ne_none fs s P h hne

/-- C2 at a chain of three stages, none of which drops the packet. -/
theorem C2_all_pass_returns_composition_witness :
    No_null [stage_inc, stage_pass, stage_inc] () (some 5) ∧
    ((Filter_chain.ctor "output" [stage_inc, stage_pass, stage_inc]).call (some 5) ()).ret
      = some 7 ∧
    ((Filter_chain.ctor "output" [stage_inc, stage_pass, stage_inc]).call (some 5) ()).ret
      ≠ none :=
  have hw : No_null [stage_inc, stage_pass, stage_inc] () (some 5) := by decide
  ⟨hw, (C2_all_pass_returns_composition "output" _ () (some 5) hw).1,
    (C2_all_pass_returns_composition "output" _ () (some 5) hw).2 (Or.inr (by decide))⟩

/-- C3: the invocations made by one run are exactly those of the first stages of the list,
once each and in list order, each with the previous stage's output (the input packet for
the first) and the same stack view: up to and including stage `k` when `k` is the first
stage that returns null, the whole list when no stage returns null; and one of the two
cases always holds. -/
theorem C3_invocations_in_list_order (C : Filter_chain Pkt Stack) (s : Stack) (p : Option Pkt) :
    (∀ k, First_null C.chain s p k →
      Invoked_first (C.call p s).calls C.chain s p (k + 1)) ∧
    (No_null C.chain s p →
      Invoked_first (C.call p s).calls C.chain s p C.chain.length) ∧
    ((∃ k, First_null C.chain s p k) ∨ No_null C.chain s p) := by
  refine ⟨?_, ?_, first_null_or_no_null s C.chain p⟩
  · intro k hk
    obtain ⟨_, _, h3, h4, h5, h6⟩ := loop_of_first_null C s C.chain 0 p k hk
    exact ⟨h3, h4, h5, h6⟩
  · intro hn
    obtain ⟨_, _, h3, h4, h5, h6⟩ := loop_of_no_null C s C.chain 0 p hn
    refine ⟨?_, h4, h5, h6⟩
    rw [List.take_of_length_le (Nat.le_refl _)]
    exact h3

/-- C3 at a chain whose second stage drops and at a chain without a dropping stage. -/
theorem C3_invocations_in_list_order_witness :
    (First_null [stage_inc, stage_drop, stage_pass] () (some 5) 1 ∧
      Invoked_first
        ((Filter_chain.ctor "forward" [stage_inc, stage_drop, stage_pass]).call (some 5) ()).calls
        [stage_inc, stage_drop, stage_pass] () (some 5) (1 + 1)) ∧
    (No_null [stage_inc, stage_pass] () (some 5) ∧
      Invoked_first
        ((Filter_chain.ctor "forward" [stage_inc, stage_pass]).call (some 5) ()).calls
        [stage_inc, stage_pass] () (some 5) 2) :=
  have hw : First_null [stage_inc, stage_drop, stage_pass] () (some 5) 1 :=
    by decide
  have hn : No_null [stage_inc, stage_pass] () (some 5) := by decide
  ⟨⟨hw, (C3_invocations_in_list_order
      (Filter_chain.ctor "forward" [stage_inc, stage_drop, stage_pass]) () (some 5)).1 1 hw⟩,
   ⟨hn, (C3_invocations_in_list_order
      (Filter_chain.ctor "forward" [stage_inc, stage_pass]) () (some 5)).2.1 hn⟩⟩

/-- C4: running a chain without stages returns the input packet unchanged, invokes no
stage and emits no diagnostic, for every packet (null included) and stack view. -/
theorem C4_empty_chain_is_noop (chain_name : String) (s : Stack) (p : Option Pkt) :
    ((Filter_chain.ctor chain_name ([] : List (Packetfilter Pkt Stack))).call p s).ret = p ∧
    ((Filter_chain.ctor chain_name ([] : List (Packetfilter Pkt Stack))).call p s).calls = [] ∧
    ((Filter_chain.ctor chain_name ([] : List (Packetfilter Pkt Stack))).call p s).log = [] :=
  ⟨rfl, rfl, rfl⟩

/-- C5: whenever a run returns null because a stage returned null, with stage `i` (0-based)
the first to do so, the run emits exactly one diagnostic, which carries the name of the
chain and the 1-based index `i + 1` of that stage; and a chain named "prerouting" with the
single stage that drops the packets destined to the blocked address `X`, run on a packet
destined to `X`, returns null and emits the diagnostic naming "prerouting" and stage 1. -/
theorem C5_drop_diagnostic {Addr : Type} [DecidableEq Addr] :
    (∀ (C : Filter_chain Pkt Stack) (s : Stack) (p : Option Pkt) (i : Nat),
      First_null C.chain s p i →
      (C.call p s).ret = none ∧
      (C.call p s).log = [{ fmt := drop_format, name := C.name, i := i + 1 }]) ∧
    (∀ (dst : Pkt → Addr) (X : Addr) (pkt : Pkt) (s : Stack), dst pkt = X →
      ((Filter_chain.ctor "prerouting" [(drop_blocked dst X : Packetfilter Pkt Stack)]).call
        (some pkt) s).ret = none ∧
      ((Filter_chain.ctor "prerouting" [(drop_blocked dst X : Packetfilter Pkt Stack)]).call
        (some pkt) s).log = [{ fmt := drop_format, name := "prerouting", i := 1 }]) := by
  constructor
  · intro C s p i h
    obtain ⟨h1, h2, _⟩ := loop_of_first_null C s C.chain 0 p i h
    refine ⟨h1, ?_⟩
    have h3 : (C.call p s).log = [debug drop_format C.name (0 + i + 1)] := h2
    rw [h3, Nat.zero_add]
    rfl
  · intro dst X pkt s hdst
    have hdrop : (drop_blocked dst X : Packetfilter Pkt Stack) (some pkt) s = none := by
      simp [drop_blocked, hdst]
    have hrun := loop_cons_none
      (Filter_chain.ctor "prerouting" [(drop_blocked dst X : Packetfilter Pkt Stack)]) s
      (drop_blocked dst X) [] 0 (some pkt) hdrop
    have hcall : (Filter_chain.ctor "prerouting"
        [(drop_blocked dst X : Packetfilter Pkt Stack)]).call (some pkt) s
        = (Filter_chain.ctor "prerouting"
          [(drop_blocked dst X : Packetfilter Pkt Stack)]).loop s [drop_blocked dst X] 0
          (some pkt) := rfl
    rw [hcall, hrun]
    exact ⟨rfl, rfl⟩

/-- C5 at a chain whose second stage drops, and at the prerouting scenario with packets
that are their own destination address and the blocked address 7. -/
theorem C5_drop_diagnostic_witness :
    (First_null (Filter_chain.ctor "input" [stage_inc, stage_drop, stage_pass]).chain ()
        (some 5) 1 ∧
      ((Filter_chain.ctor "input" [stage_inc, stage_drop, stage_pass]).call (some 5) ()).log
        = [{ fmt := drop_format, name := "input", i := 2 }]) ∧
    ((fun q : Nat => q) 7 = 7 ∧
      ((Filter_chain.ctor "prerouting"
          [(drop_blocked (fun q : Nat => q) 7 : Packetfilter Nat Unit)]).call (some 7) ()).ret
        = none ∧
      ((Filter_chain.ctor "prerouting"
          [(drop_blocked (fun q : Nat => q) 7 : Packetfilter Nat Unit)]).call (some 7) ()).log
        = [{ fmt := drop_format, name := "prerouting", i := 1 }]) :=
  have hw : First_null (Filter_chain.ctor "input" [stage_inc, stage_drop, stage_pass]).chain ()
      (some 5) 1 :=
    by decide
  ⟨⟨hw, ((@C5_drop_diagnostic Nat Unit Nat _).1 _ () (some 5) 1 hw).2⟩,
   ⟨rfl, (@C5_drop_diagnostic Nat Unit Nat _).2 (fun q : Nat => q) 7 7 () rfl⟩⟩

/-- C6: inserting at any position `k` a stage `g` that returns every packet it is given
unchanged does not change what the chain returns for a non-null input packet; and a chain
made only of such stages returns the non-null input packet unchanged. -/
theorem C6_pass_through_transparent :
    (∀ (C : Filter_chain Pkt Stack) (k : Nat) (g : Packetfilter Pkt Stack) (p : Pkt)
        (s : Stack), (∀ q : Pkt, g (some q) s = some q) →
      ((Filter_chain.ctor C.name (insert_stage C.chain k g)).call (some p) s).ret
        = (C.call (some p) s).ret) ∧
    (∀ (chain_name : String) (fs : List (Packetfilter Pkt Stack)) (p : Pkt) (s : Stack),
      (∀ f ∈ fs, ∀ q : Pkt, f (some q) s = some q) →
      ((Filter_chain.ctor chain_name fs).call (some p) s).ret = some p) := by
  constructor
  · intro C k g p s hg
    have hsplit : C.chain = C.chain.take k ++ C.chain.drop k := (List.take_append_drop k _).symm
    have hlhs : ((Filter_chain.ctor C.name (insert_stage C.chain k g)).call (some p) s).ret
        = (C.loop s (C.chain.take k ++ g :: C.chain.drop k) 0 (some p)).ret :=
      loop_ret_indep _ C s _ 0 0 (some p)
    have hrhs : (C.call (some p) s).ret
        = (C.loop s (C.chain.take k ++ C.chain.drop k) 0 (some p)).ret := by
      rw [← hsplit]; rfl
    rw [hlhs, hrhs]
    rcases first_null_or_no_null s (C.chain.take k) (some p) with ⟨j, hj⟩ | hn
    · rw [loop_append_of_first_null C s _ _ 0 (some p) j hj,
        loop_append_of_first_null C s _ _ 0 (some p) j hj]
    · have hne := apply_in_order_ne_none (C.chain.take k) s (some p) hn
        (Or.inr (Option.some_ne_none p))
      obtain ⟨q, hq⟩ := Option.ne_none_iff_exists'.1 hne
      rw [(loop_append_of_no_null C s (g :: C.chain.drop k) _ 0 (some p) hn).1,
        (loop_append_of_no_null C s (C.chain.drop k) _ 0 (some p) hn).1, hq,
        loop_cons_some C s g _ _ (some q) q (hg q)]
      exact loop_ret_indep C C s _ _ _ (some q)
  · intro chain_name fs p s h
    exact loop_pass_through (Filter_chain.ctor chain_name fs) s fs 0 p h

/-- C6 with a pass-through stage inserted at position 1 of a two-stage chain, and at a
chain of two pass-through stages. -/
theorem C6_pass_through_transparent_witness :
    ((∀ q : Nat, stage_pass (some q) () = some q) ∧
      ((Filter_chain.ctor "output" [stage_inc, stage_pass, stage_inc]).call (some 5) ()).ret
        = ((Filter_chain.ctor "output" [stage_inc, stage_inc]).call (some 5) ()).ret) ∧
    ((∀ f ∈ [stage_pass, stage_pass], ∀ q : Nat, f (some q) () = some q) ∧
      ((Filter_chain.ctor "output" [stage_pass, stage_pass]).call (some 5) ()).ret = some 5) :=
  have hall : ∀ f ∈ [stage_pass, stage_pass], ∀ q : Nat, f (some q) () = some q := by
    intro f hf q
    simp only [List.mem_cons, List.mem_singleton, List.not_mem_nil, or_false, or_self] at hf
    rw [hf]
    rfl
  ⟨⟨fun _ => rfl,
    C6_pass_through_transparent.1 (Filter_chain.ctor "output" [stage_inc, stage_inc]) 1
      stage_pass 5 () (fun _ => rfl)⟩,
   ⟨hall, C6_pass_through_transparent.2 "output" [stage_pass, stage_pass] 5 () hall⟩⟩

/-- C7: after the call operator returns, with a packet or with null, the chain object is
the one it was before the call: same stage list (same stages, same order, same length)
and same name. -/
theorem C7_run_keeps_composition (C : Filter_chain Pkt Stack) (p : Option Pkt) (s : Stack) :
    (C.call p s).self = C ∧
    (C.call p s).self.chain = C.chain ∧
    (C.call p s).self.chain.length = C.chain.length ∧
    (C.call p s).self.name = C.name := by
  have h : (C.call p s).self = C := loop_self C s C.chain 0 p
  rw [h]
  exact ⟨rfl, rfl, rfl, rfl⟩

/-- C8: in the link cache as the spec describes it, `cache_link_addr(a, m)` followed
immediately (at the same time `now`) by a lookup for `a` yields `m`, whatever the cache
held and whatever the flush interval is; and after `flush_link_cache()` a lookup for `a`
yields "not found", at any time. -/
theorem C8_link_cache_round_trip {Addr Mac : Type} [DecidableEq Addr]
    (c : Link_cache Addr Mac) (now : Nat) (a : Addr) (m : Mac) :
    link_cache_lookup (cache_link_addr c now a m) now a = some m ∧
    ∀ later : Nat,
      link_cache_lookup (flush_link_cache (cache_link_addr c now a m)) later a = none := by
  constructor
  · simp [link_cache_lookup, cache_link_addr]
  · intro later
    simp [link_cache_lookup, flush_link_cache]

/-- C9 as stated fails: the chain without stages run on the null packet returns null, yet
the chain `[] ++ [stage_revive]` run on the null packet invokes `stage_revive` and returns
a packet. -/
theorem C9_concat_counterexample :
    ¬ (((Filter_chain.ctor "A" ([] : List (Packetfilter Nat Unit))).call none ()).ret = none →
        ((Filter_chain.ctor "AB" ([] ++ [stage_revive])).call none ()).ret = none ∧
        ((Filter_chain.ctor "AB" ([] ++ [stage_revive])).call none ()).calls
          = ((Filter_chain.ctor "A" ([] : List (Packetfilter Nat Unit))).call none ()).calls) := by
  intro h
  have h1 : ((Filter_chain.ctor "AB" ([] ++ [stage_revive])).call none ()).ret = none :=
    (h rfl).1
  have h2 : ((Filter_chain.ctor "AB" ([] ++ [stage_revive])).call none ()).ret = some 0 := rfl
  rw [h2] at h1
  exact Option.some_ne_none 0 h1

/-- C9, amended: for stage lists `A` and `B`, a packet `p` and a stack view `s`: if `A` is
not empty or `p` is not null, and running `A` on `p` returns null, then running `A ++ B` on
`p` returns null and makes exactly the invocations the run of `A` makes (none of a stage of
`B`); and if running `A` on `p` returns non-null, or `A` is empty and `p` is null, then
running `A ++ B` on `p` returns what running `B` on the packet returned by `A` returns. -/
theorem C9_concat_amended (nameA nameB nameAB : String)
    (A B : List (Packetfilter Pkt Stack)) (p : Option Pkt) (s : Stack) :
    (A ≠ [] ∨ p ≠ none → ((Filter_chain.ctor nameA A).call p s).ret = none →
      ((Filter_chain.ctor nameAB (A ++ B)).call p s).ret = none ∧
      ((Filter_chain.ctor nameAB (A ++ B)).call p s).calls
        = ((Filter_chain.ctor nameA A).call p s).calls) ∧
    ((A = [] ∧ p = none) ∨ ((Filter_chain.ctor nameA A).call p s).ret ≠ none →
      ((Filter_chain.ctor nameAB (A ++ B)).call p s).ret
        = ((Filter_chain.ctor nameB B).call ((Filter_chain.ctor nameA A).call p s).ret s).ret) := by
  have hA : ∀ k, First_null A s p k →
      ((Filter_chain.ctor nameA A).call p s).ret = none := fun k hk =>
    (loop_of_first_null (Filter_chain.ctor nameA A) s A 0 p k hk).1
  have hN : No_null A s p →
      ((Filter_chain.ctor nameA A).call p s).ret = apply_in_order A s p := fun hn =>
    (loop_of_no_null (Filter_chain.ctor nameA A) s A 0 p hn).1
  constructor
  · intro hne hret
    rcases first_null_or_no_null s A p with ⟨k, hk⟩ | hn
    · have happ := loop_append_of_first_null (Filter_chain.ctor nameAB (A ++ B)) s B A 0 p k hk
      constructor
      · show ((Filter_chain.ctor nameAB (A ++ B)).loop s (A ++ B) 0 p).ret = none
        rw [happ, loop_ret_indep _ (Filter_chain.ctor nameA A) s A 0 0 p]
        exact hret
      · show ((Filter_chain.ctor nameAB (A ++ B)).loop s (A ++ B) 0 p).calls = _
        rw [happ]
        exact loop_calls_indep _ (Filter_chain.ctor nameA A) s A 0 p
    · rw [hN hn] at hret
      exact absurd hret (apply_in_order_ne_none A s p hn hne)
  · intro hcase
    have hn : No_null A s p := by
      rcases first_null_or_no_null s A p with ⟨k, hk⟩ | hn
      · rcases hcase with ⟨hnil, _⟩ | hret
        · rw [hnil] at hk
          exact absurd hk (not_first_null_nil s p k)
        · exact absurd (hA k hk) hret
      · exact hn
    rw [hN hn]
    show ((Filter_chain.ctor nameAB (A ++ B)).loop s (A ++ B) 0 p).ret = _
    rw [(loop_append_of_no_null (Filter_chain.ctor nameAB (A ++ B)) s B A 0 p hn).1]
    exact loop_ret_indep _ (Filter_chain.ctor nameB B) s B _ 0 _

/-- C9, amended, at `A` whose second stage drops, and at `A` without a dropping stage. -/
theorem C9_concat_amended_witness :
    (([stage_inc, stage_drop] ≠ [] ∨ (some 5 : Option Nat) ≠ none) ∧
      ((Filter_chain.ctor "A" [stage_inc, stage_drop]).call (some 5) ()).ret = none ∧
      ((Filter_chain.ctor "AB" ([stage_inc, stage_drop] ++ [stage_revive])).call (some 5)
        ()).ret = none) ∧
    (((Filter_chain.ctor "A" [stage_inc]).call (some 5) ()).ret ≠ none ∧
      ((Filter_chain.ctor "AB" ([stage_inc] ++ [stage_inc])).call (some 5) ()).ret
        = some 7) :=
  ⟨⟨Or.inr (by decide), rfl,
    ((C9_concat_amended "A" "B" "AB" [stage_inc, stage_drop] [stage_revive] (some 5) ()).1
      (Or.inr (by decide)) rfl).1⟩,
   ⟨by decide,
    (C9_concat_amended "A" "B" "AB" [stage_inc] [stage_inc] (some 5) ()).2
      (Or.inr (by decide))⟩⟩

/-- C10: a run on the null packet is not cut short. For a chain with at least one stage,
the first invocation is of the first stage, with the null packet, and a null result comes
from an invoked stage that returned null; when the first stage answers null with a packet
`q` the run continues as the run of the remaining stages on `q`, and returns non-null when
none of them returns null. For the chain without stages, the run on the null packet returns
null, invokes nothing and emits no diagnostic. -/
theorem C10_null_input_not_short_circuited :
    (∀ (chain_name : String) (f : Packetfilter Pkt Stack)
        (rest : List (Packetfilter Pkt Stack)) (s : Stack),
      ((Filter_chain.ctor chain_name (f :: rest)).call none s).calls.head?
        = some { i := 1, filter := f, pckt := none, stack := s } ∧
      (((Filter_chain.ctor chain_name (f :: rest)).call none s).ret = none →
        ∃ c ∈ ((Filter_chain.ctor chain_name (f :: rest)).call none s).calls,
          c.filter c.pckt c.stack = none)) ∧
    (∀ (chain_name : String) (f : Packetfilter Pkt Stack)
        (rest : List (Packetfilter Pkt Stack)) (s : Stack) (q : Pkt), f none s = some q →
      ((Filter_chain.ctor chain_name (f :: rest)).call none s).ret
        = ((Filter_chain.ctor chain_name rest).call (some q) s).ret ∧
      (No_null rest s (some q) →
        ((Filter_chain.ctor chain_name (f :: rest)).call none s).ret ≠ none)) ∧
    (∀ (chain_name : String) (s : Stack),
      ((Filter_chain.ctor chain_name ([] : List (Packetfilter Pkt Stack))).call none s).ret
        = none ∧
      ((Filter_chain.ctor chain_name ([] : List (Packetfilter Pkt Stack))).call none s).calls
        = [] ∧
      ((Filter_chain.ctor chain_name ([] : List (Packetfilter Pkt Stack))).call none s).log
        = []) := by
  refine ⟨?_, ?_, fun _ _ => ⟨rfl, rfl, rfl⟩⟩
  · intro chain_name f rest s
    constructor
    · show ((Filter_chain.ctor chain_name (f :: rest)).loop s (f :: rest) 0 none).calls.head? = _
      cases h : f none s with
      | none => rw [loop_cons_none _ s f rest 0 none h]; rfl
      | some q => rw [loop_cons_some _ s f rest 0 none q h]; rfl
    · intro hret
      exact loop_ret_none_from_stage _ s (f :: rest) 0 none (Or.inl (List.cons_ne_nil f rest)) hret
  · intro chain_name f rest s q hq
    have hstep : ((Filter_chain.ctor chain_name (f :: rest)).call none s).ret
        = ((Filter_chain.ctor chain_name rest).call (some q) s).ret := by
      show ((Filter_chain.ctor chain_name (f :: rest)).loop s (f :: rest) 0 none).ret = _
      rw [loop_cons_some _ s f rest 0 none q hq]
      exact loop_ret_indep _ _ s rest _ _ (some q)
    refine ⟨hstep, ?_⟩
    intro hn
    rw [hstep]
    have hval : ((Filter_chain.ctor chain_name rest).call (some q) s).ret
        = apply_in_order rest s (some q) :=
      (loop_of_no_null (Filter_chain.ctor chain_name rest) s rest 0 (some q) hn).1
    rw [hval]
    exact apply_in_order_ne_none rest s (some q) hn (Or.inr (Option.some_ne_none q))

/-- C10 at a chain whose first stage answers the null packet with the packet 0. -/
theorem C10_null_input_not_short_circuited_witness :
    stage_revive none () = some 0 ∧
    No_null [stage_inc] () (some 0) ∧
    ((Filter_chain.ctor "input" [stage_revive, stage_inc]).call none ()).ret
      = ((Filter_chain.ctor "input" [stage_inc]).call (some 0) ()).ret ∧
    ((Filter_chain.ctor "input" [stage_revive, stage_inc]).call none ()).ret ≠ none :=
  have hn : No_null [stage_inc] () (some 0) := by decide
  ⟨rfl, hn,
    ((@C10_null_input_not_short_circuited Nat Unit).2.1 "input" stage_revive [stage_inc] () 0
      rfl).1,
    ((@C10_null_input_not_short_circuited Nat Unit).2.1 "input" stage_revive [stage_inc] () 0
      rfl).2 hn⟩

end claims

end net
